import Mathlib

/-!
Verification of the command-dispatch core of the `testrust` JSON request/response
server, as described by its design specification.

The development contains two shallow embeddings:

* the dispatch engine of `src/commands.rs` (`form_response`, `process_command`,
  `process_command_calculate`, the batch loop) together with the metrics
  aggregator `Metrics::update` of `src/types.rs`.  There, `Request` carries a
  fieldless command discriminant and a separate optional raw `payload` field;
  the serde decodes that the dispatcher performs on the raw payload
  (`serde_json::from_value::<CalculationPayload>` and
  `serde_json::from_value::<Vec<Request>>`) are modelled by storing the result
  of that decode in the request (`none` = field absent, `some (.error e)` =
  present but undecodable, `some (.ok x)` = decodes to `x`).

* the serde decoding of the typed `Request` of `src/types.rs`
  (`request_id: Uuid` plus an internally tagged `Command` with
  `tag = "command"`, `content = "payload"`), as a function from JSON documents
  to `Types.Request`.

Machine floats (`f64`) are modelled as exact rationals (`ℚ`): all arithmetic
the program performs on them is embedded by the same formulas over `ℚ`.
Wall-clock time is modelled by an oracle `World` supplying the observed
duration and the formatted current time for each dispatch event; a counter
threads through the recursion so that every event reads its own slot.
-/

/-- JSON values (`serde_json::Value`).  Numbers are modelled as exact
rationals; object member order follows insertion order, which no modelled
operation inspects. -/
inductive Json where
  | null : Json
  | bool : Bool → Json
  | num : ℚ → Json
  | str : String → Json
  | arr : List Json → Json
  | obj : List (String × Json) → Json

/-- The `CommandKind` from `src/types.rs`: the command's tag without its payload,
used as the metrics key. -/
inductive CommandKind where
  | ping
  | echo
  | time
  | calculate
  | batch
deriving DecidableEq

/-- The `Operation` from `src/types.rs`: the supported arithmetic operations. -/
inductive Operation where
  | add
  | subtract
  | multiply
  | divide
deriving DecidableEq

/-- The `CalculationPayload`: the decoded payload of a `calculate` command.  The
struct itself lives in the snapshot of `types.rs` that `commands.rs`,
`handler.rs` and `main.rs` compile against (not present under `src/`); its
fields `operation`, `a`, `b` are fixed by every use site
(`payload.operation`, `payload.a`, `payload.b`) and by the spec's Calculate
payload table. -/
structure CalculationPayload where
  operation : Operation
  a : ℚ
  b : ℚ
deriving DecidableEq

/-- Request identifiers.  The dispatcher never inspects a `Uuid`, it only
copies it into responses, so the model treats it as an opaque string. -/
abbrev Uuid := String

mutual
/-- The command of a request as `src/commands.rs` sees it: a payload-less
discriminant (`Command::Ping`, …) paired with the raw `payload` field of the
request.  The payload is attached to the variant that consumes it, storing
the outcome of the serde decode the dispatcher would perform on the raw
value (see the file header).  `ping` and `time` ignore their payload, so it
is dropped. -/
inductive Command where
  | ping : Command
  | echo : Option Json → Command
  | time : Command
  | calculate : Option (Except String CalculationPayload) → Command
  | batch : Option (Except String (List Request)) → Command

/-- The `Request` as dispatched by `src/commands.rs`: a `request_id` and a
command (with its raw payload, see `Command`). -/
inductive Request where
  | mk : Uuid → Command → Request
end

/-- Field accessor `request.request_id`. -/
def Request.request_id : Request → Uuid
  | .mk u _ => u

/-- Field accessor `request.command`. -/
def Request.command : Request → Command
  | .mk _ c => c

/-- The `Command::kind` from `src/types.rs`. -/
def Command.kind : Command → CommandKind
  | .ping => .ping
  | .echo _ => .echo
  | .time => .time
  | .calculate _ => .calculate
  | .batch _ => .batch

/-- The `Status` from `src/types.rs`. -/
inductive Status where
  | ok
  | error
deriving DecidableEq

/-- The `OkResponse` from `src/types.rs`. -/
structure OkResponse where
  request_id : Uuid
  status : Status
  response : Json

/-- The `ErrorResponse` from `src/types.rs`.  `request_id` is `none` exactly when
the identifier could not be read from the input. -/
structure ErrorResponse where
  request_id : Option Uuid
  status : Status
  error : String

/-- The `Response` from `src/types.rs` (untagged union of the two). -/
inductive Response where
  | ok : OkResponse → Response
  | err : ErrorResponse → Response

/-- serde serialization of a `Response` into JSON, as performed by
`json!(result)` on the batch result vector.  `Status` serializes in
lowercase; a `None` request id serializes as `null`. -/
def Response.toJson : Response → Json
  | .ok o => .obj [("request_id", .str o.request_id), ("status", .str "ok"),
      ("response", o.response)]
  | .err e => .obj [("request_id", match e.request_id with
        | none => .null
        | some u => .str u),
      ("status", .str "error"), ("error", .str e.error)]

/-- The `request_id` carried by a response, `none` for an error response
whose identifier is unknown. -/
def Response.requestId : Response → Option Uuid
  | .ok o => some o.request_id
  | .err e => e.request_id

/-- The `Metrics` from `src/types.rs`.  The Rust `HashMap`s are modelled as a
total function (absent key = `0`, matching `entry(..).or_default()`) for the
counts, and as `Option`-valued functions for the three time statistics. -/
structure Metrics where
  command_counts : CommandKind → Nat
  processing_time_min : CommandKind → Option ℚ
  processing_time_avg : CommandKind → Option ℚ
  processing_time_max : CommandKind → Option ℚ

/-- The empty metrics store (`Metrics::default()`). -/
def Metrics.empty : Metrics :=
  ⟨fun _ => 0, fun _ => none, fun _ => none, fun _ => none⟩

/-- The `Metrics::update` from `src/types.rs`: increment the count, fold the
duration into min and max, and recompute the average from the closed form
`(old * (count - 1) + duration) / count`, where `count` is read back after
the increment.  `count - 1` is the Rust `usize` subtraction (the count is at
least 1 at that point). -/
def Metrics.update (m : Metrics) (command_kind : CommandKind) (duration : ℚ) :
    Metrics :=
  let counts : CommandKind → Nat := fun k =>
    if k = command_kind then m.command_counts k + 1 else m.command_counts k
  let mins : CommandKind → Option ℚ := fun k =>
    if k = command_kind then
      some (match m.processing_time_min k with
        | none => duration
        | some old => min old duration)
    else m.processing_time_min k
  let maxs : CommandKind → Option ℚ := fun k =>
    if k = command_kind then
      some (match m.processing_time_max k with
        | none => duration
        | some old => max old duration)
    else m.processing_time_max k
  let count : Nat := counts command_kind
  let avgs : CommandKind → Option ℚ := fun k =>
    if k = command_kind then
      some (match m.processing_time_avg k with
        | none => duration
        | some old => (old * ((count - 1 : Nat) : ℚ) + duration) / (count : ℚ))
    else m.processing_time_avg k
  ⟨counts, mins, avgs, maxs⟩

/-- The wall clock, as an oracle: `dur i` is the duration (in milliseconds,
`elapsed().as_micros() as f64 / 1000.0`) observed by the `i`-th dispatch
event, and `now i` the RFC 3339 string `Utc::now()` formats for it. -/
structure World where
  dur : Nat → ℚ
  now : Nat → String

/-- The result of `process_command`: a value, an `anyhow` error, or a panic
(`Option::unwrap` on `None`). -/
inductive Outcome where
  | panic : Outcome
  | ok : Json → Outcome
  | err : String → Outcome

/-- The result of `form_response`: a `Response`, or a panic propagating out
of `process_command`. -/
inductive DOutcome where
  | panic : DOutcome
  | resp : Response → DOutcome

/-- The `process_command_calculate` from `src/commands.rs` (identical in
`src/handler.rs`): reject an absent payload, propagate the serde decode
error of a malformed one, evaluate the operation, and fail with
`"division by zero"` when dividing by `b == 0.0`. -/
def process_command_calculate
    (payload : Option (Except String CalculationPayload)) :
    Except String Json :=
  match payload with
  | none => .error "missing `payload` field"
  | some (.error e) => .error e
  | some (.ok p) =>
    match p.operation with
    | .add => .ok (.obj [("result", .num (p.a + p.b))])
    | .subtract => .ok (.obj [("result", .num (p.a - p.b))])
    | .multiply => .ok (.obj [("result", .num (p.a * p.b))])
    | .divide =>
      if p.b = 0 then .error "division by zero"
      else .ok (.obj [("result", .num (p.a / p.b))])

mutual
/-- The `form_response` from `src/commands.rs`.  `n` is the clock position: this
dispatch event reads its duration from `w.dur n` (taken only when the
command is not `Batch`) and nested events use the later slots; the returned
`Nat` is the next free slot.  The metrics update happens after the response
is formed and before returning, exactly when the command is not `Batch`; a
panic escaping `process_command` skips it. -/
def form_response (w : World) (n : Nat) (r : Request) (m : Metrics) :
    DOutcome × Metrics × Nat :=
  match process_command w n r m with
  | (.panic, m', n') => (.panic, m', n')
  | (.ok v, m', n') =>
    let resp : Response := .ok ⟨r.request_id, .ok, v⟩
    if r.command.kind = .batch then (.resp resp, m', n')
    else (.resp resp, m'.update r.command.kind (w.dur n), n')
  | (.err e, m', n') =>
    let resp : Response := .err ⟨some r.request_id, .error, e⟩
    if r.command.kind = .batch then (.resp resp, m', n')
    else (.resp resp, m'.update r.command.kind (w.dur n), n')
termination_by (sizeOf r, 1)
decreasing_by all_goals (simp_wf; omega)

/-- The `process_command` from `src/commands.rs`.  The `batch` arm mirrors
`request.payload.unwrap()` (panic when the field is absent) followed by
`serde_json::from_value::<Vec<Request>>(..)?`; the `echo` arm mirrors
`request.payload.unwrap_or_default()` (`Value::default()` is `null`). -/
def process_command (w : World) (n : Nat) (r : Request) (m : Metrics) :
    Outcome × Metrics × Nat :=
  match r with
  | .mk _ c =>
    match c with
    | .ping => (.ok (.str "pong"), m, n + 1)
    | .echo p => (.ok (p.getD .null), m, n + 1)
    | .time => (.ok (.obj [("time", .str (w.now n))]), m, n + 1)
    | .calculate p =>
      (match process_command_calculate p with
        | .ok v => .ok v
        | .error e => .err e, m, n + 1)
    | .batch none => (.panic, m, n)
    | .batch (some (.error e)) => (.err e, m, n + 1)
    | .batch (some (.ok items)) =>
      match process_batch w (n + 1) items m with
      | (none, m', n') => (.panic, m', n')
      | (some rs, m', n') => (.ok (.arr (rs.map Response.toJson)), m', n')
termination_by (sizeOf r, 0)
decreasing_by all_goals (simp_wf; omega)

/-- The `for item in batch { result.push(form_response(item, ..).await) }`
loop of `src/commands.rs`: dispatch the items in order, threading the
metrics store and the clock; a panic in an item aborts the loop and
propagates (`none`). -/
def process_batch (w : World) (n : Nat) (items : List Request) (m : Metrics) :
    Option (List Response) × Metrics × Nat :=
  match items with
  | [] => (some [], m, n)
  | r :: rest =>
    match form_response w n r m with
    | (.panic, m', n') => (none, m', n')
    | (.resp resp, m', n') =>
      match process_batch w n' rest m' with
      | (none, m'', n'') => (none, m'', n'')
      | (some rs, m'', n'') => (some (resp :: rs), m'', n'')
termination_by (sizeOf items, 2)
decreasing_by all_goals (simp_wf; omega)
end

mutual
/-- A request on which `process_command` cannot reach the
`request.payload.unwrap()` panic: every `batch` node in it carries a payload
field (decodable or not). -/
def panicFree : Request → Bool
  | .mk _ c =>
    match c with
    | .batch none => false
    | .batch (some (.ok items)) => panicFreeList items
    | _ => true
termination_by r => sizeOf r

/-- The `panicFree` on every element of a batch payload. -/
def panicFreeList : List Request → Bool
  | [] => true
  | r :: rest => panicFree r && panicFreeList rest
termination_by items => sizeOf items
end

mutual
/-- The number of dispatch calls of kind `k` that processing `r` performs,
not counting calls whose command is `Batch` (those are exempt from metrics):
one for the node itself when its kind is `k`, plus the calls performed for
the items of a decodable batch payload. -/
def callsOfKind (k : CommandKind) : Request → Nat
  | .mk _ c =>
    match c with
    | .batch (some (.ok items)) => callsOfKindList k items
    | .batch _ => 0
    | c' => if c'.kind = k then 1 else 0
termination_by r => sizeOf r

/-- Sum of `callsOfKind` over a list of requests. -/
def callsOfKindList (k : CommandKind) : List Request → Nat
  | [] => 0
  | r :: rest => callsOfKind k r + callsOfKindList k rest
termination_by items => sizeOf items
end

mutual
/-- The trace of `(CommandKind, duration)` samples that dispatching `r` at
clock position `n` passes to `Metrics::update`, in order, together with the
next clock position and whether the dispatch panics.  A non-`Batch` call
contributes exactly its own sample; a `Batch` call contributes only its
items' samples, truncated at a panicking item. -/
def samples (w : World) (n : Nat) (r : Request) :
    List (CommandKind × ℚ) × Nat × Bool :=
  match r with
  | .mk _ c =>
    match c with
    | .batch none => ([], n, true)
    | .batch (some (.error _)) => ([], n + 1, false)
    | .batch (some (.ok items)) => samplesList w (n + 1) items
    | c' => ([(c'.kind, w.dur n)], n + 1, false)
termination_by sizeOf r

/-- The samples recorded by the batch loop over `items`. -/
def samplesList (w : World) (n : Nat) (items : List Request) :
    List (CommandKind × ℚ) × Nat × Bool :=
  match items with
  | [] => ([], n, false)
  | r :: rest =>
    match samples w n r with
    | (tr, n', true) => (tr, n', true)
    | (tr, n', false) =>
      match samplesList w n' rest with
      | (tr', n'', p) => (tr ++ tr', n'', p)
termination_by sizeOf items
end

/-- Apply a trace of samples to a metrics store, in order. -/
def applyTrace (m : Metrics) (tr : List (CommandKind × ℚ)) : Metrics :=
  tr.foldl (fun acc p => acc.update p.1 p.2) m

/-- Dispatch a sequence of top-level requests against one shared metrics
store (one connection each; a panic kills only its own task, so the run
continues with the next request). -/
def runAll (w : World) (n : Nat) (reqs : List Request) (m : Metrics) :
    Metrics × Nat :=
  match reqs with
  | [] => (m, n)
  | r :: rest =>
    match form_response w n r m with
    | (_, m', n') => runAll w n' rest m'

namespace Types

/-- Lookup of a member in a JSON object (`serde_json` map access; our model
object is an association list, first binding wins). -/
def lookupField (fields : List (String × Json)) (key : String) : Option Json :=
  match fields with
  | [] => none
  | (k, v) :: rest => if k = key then some v else lookupField rest key

lemma sizeOf_lookupField {fields : List (String × Json)} {key : String}
    {v : Json} (h : lookupField fields key = some v) :
    sizeOf v < sizeOf (Json.obj fields) := by
  induction fields with
  | nil => simp [lookupField] at h
  | cons p rest ih =>
    obtain ⟨k, x⟩ := p
    by_cases hk : k = key
    · simp [lookupField, hk] at h
      subst h
      simp
      omega
    · simp [lookupField, hk] at h
      have hrec := ih h
      simp at hrec ⊢
      omega

/-- ASCII hex digit (both cases), as accepted by the `uuid` crate. -/
def isHexDigit (c : Char) : Bool :=
  ('0' ≤ c && c ≤ '9') || ('a' ≤ c && c ≤ 'f') || ('A' ≤ c && c ≤ 'F')

/-- Simple UUID form: 32 hex digits. -/
def isSimpleUuid (cs : List Char) : Bool :=
  cs.length == 32 && cs.all isHexDigit

/-- Hyphenated UUID form: 8-4-4-4-12 hex digits. -/
def isHyphenatedUuid (cs : List Char) : Bool :=
  cs.length == 36 &&
  (List.range 36).all fun i =>
    if i == 8 || i == 13 || i == 18 || i == 23 then cs.getD i '0' == '-'
    else isHexDigit (cs.getD i '0')

/-- Model of `Uuid::parse_str` succeeding on the string form of a UUID.  The
canonical simple and hyphenated forms are modelled; the crate additionally
accepts braced and URN forms, which no claim turns on and this model
rejects. -/
def parseUuidOk (s : String) : Bool :=
  isSimpleUuid s.toList || isHyphenatedUuid s.toList

mutual
/-- The `Command` from `src/types.rs`: the internally tagged enum, tag field
`command`, content field `payload`, each variant carrying its decoded
payload. -/
inductive Command where
  | ping : Command
  | echo : Json → Command
  | time : Command
  | calculate : Operation → ℚ → ℚ → Command
  | batch : List Request → Command

/-- The `Request` from `src/types.rs`: a well-formed UUID string and a typed
command. -/
inductive Request where
  | mk : String → Command → Request
end

/-- serde deserialization of `Operation` (`rename_all = "lowercase"`). -/
def parseOperation (j : Json) : Except String Operation :=
  match j with
  | .str "add" => .ok .add
  | .str "subtract" => .ok .subtract
  | .str "multiply" => .ok .multiply
  | .str "divide" => .ok .divide
  | _ => .error "unknown operation variant"

/-- serde deserialization of the `Calculate` struct-variant content: fields
`operation`, `a`, `b` required (`a`, `b` are JSON numbers), unknown fields
ignored. -/
def decodeCalculate (pf : List (String × Json)) : Except String Command :=
  match lookupField pf "operation" with
  | none => .error "missing field operation"
  | some oj =>
    match parseOperation oj with
    | .error e => .error e
    | .ok op =>
      match lookupField pf "a" with
      | none => .error "missing field a"
      | some (.num a) =>
        match lookupField pf "b" with
        | none => .error "missing field b"
        | some (.num b) => .ok (.calculate op a b)
        | some _ => .error "invalid type for field b"
      | some _ => .error "invalid type for field a"

mutual
/-- serde deserialization of a JSON document into the `Request` of
`src/types.rs` (`serde_json::from_value::<Request>`): the document must be
an object whose `request_id` member is a string holding a UUID and whose
`command` member is one of the five known tags; the `payload` member is then
decoded per variant (absent or `null` for the unit variants `ping`/`time`;
any value for `echo`; an object with `operation`/`a`/`b` for `calculate`;
an array of requests for `batch`).  Unknown members are ignored, as serde
does for this derive configuration. -/
def decodeRequest (j : Json) : Except String Request :=
  match j with
  | .obj fields =>
    match lookupField fields "request_id" with
    | none => .error "missing field request_id"
    | some (.str s) =>
      if parseUuidOk s then
        match lookupField fields "command" with
        | none => .error "missing field command"
        | some (.str tag) =>
          if tag = "ping" then
            match lookupField fields "payload" with
            | none => .ok (.mk s .ping)
            | some .null => .ok (.mk s .ping)
            | some _ => .error "invalid type: expected unit payload"
          else if tag = "echo" then
            match lookupField fields "payload" with
            | none => .error "missing field payload"
            | some v => .ok (.mk s (.echo v))
          else if tag = "time" then
            match lookupField fields "payload" with
            | none => .ok (.mk s .time)
            | some .null => .ok (.mk s .time)
            | some _ => .error "invalid type: expected unit payload"
          else if tag = "calculate" then
            match lookupField fields "payload" with
            | none => .error "missing field payload"
            | some (.obj pf) =>
              (match decodeCalculate pf with
                | .ok c => .ok (.mk s c)
                | .error e => .error e)
            | some _ => .error "invalid type: expected payload object"
          else if tag = "batch" then
            match h : lookupField fields "payload" with
            | none => .error "missing field payload"
            | some (.arr xs) =>
              (match decodeRequestList xs with
                | .ok items => .ok (.mk s (.batch items))
                | .error e => .error e)
            | some _ => .error "invalid type: expected payload array"
          else .error ("unknown variant " ++ tag)
        | some _ => .error "invalid type for command tag"
      else .error "request_id: invalid UUID"
    | some _ => .error "invalid type for request_id"
  | _ => .error "invalid type: expected request object"
termination_by sizeOf j
decreasing_by
  simp_wf
  have hlt := sizeOf_lookupField h
  simp at hlt
  omega

/-- serde deserialization of `Vec<Request>` content: every element must
decode. -/
def decodeRequestList (xs : List Json) : Except String (List Request) :=
  match xs with
  | [] => .ok []
  | x :: rest =>
    match decodeRequest x with
    | .error e => .error e
    | .ok r =>
      match decodeRequestList rest with
      | .error e => .error e
      | .ok rs => .ok (r :: rs)
termination_by sizeOf xs
decreasing_by
  all_goals (simp_wf; try omega)
end

end Types

/-- The dispatcher refines its sample trace: the metrics store after a
dispatch is the initial store with exactly the samples of `samples` applied
in order, the clock advances identically, and the dispatch panics exactly
when the trace says so. -/
def FRefines (r : Request) : Prop := ∀ (w : World) (n : Nat) (m : Metrics),
    (form_response w n r m).2.1 = applyTrace m (samples w n r).1
  ∧ (form_response w n r m).2.2 = (samples w n r).2.1
  ∧ ((form_response w n r m).1 = .panic ↔ (samples w n r).2.2 = true)

/-- The `FRefines`, for the batch loop. -/
def BRefines (l : List Request) : Prop := ∀ (w : World) (n : Nat) (m : Metrics),
    (process_batch w n l m).2.1 = applyTrace m (samplesList w n l).1
  ∧ (process_batch w n l m).2.2 = (samplesList w n l).2.1
  ∧ ((process_batch w n l m).1 = none ↔ (samplesList w n l).2.2 = true)

/-- No sample of a dispatch trace ever has kind `Batch`. -/
def NoBatchSamples (r : Request) : Prop :=
  ∀ (w : World) (n : Nat) (p : CommandKind × ℚ),
    p ∈ (samples w n r).1 → p.1 ≠ .batch

/-- The `NoBatchSamples`, for the batch loop. -/
def NoBatchSamplesList (l : List Request) : Prop :=
  ∀ (w : World) (n : Nat) (p : CommandKind × ℚ),
    p ∈ (samplesList w n l).1 → p.1 ≠ .batch

/-- Panic-free dispatches have non-panicking traces, and the number of
samples of kind `k` equals the structural count of non-batch dispatch calls
of kind `k`. -/
def CallCount (r : Request) : Prop := panicFree r = true →
  ∀ (w : World) (n : Nat),
    (samples w n r).2.2 = false
  ∧ ∀ k : CommandKind,
      ((samples w n r).1.filter fun p => decide (p.1 = k)).length
        = callsOfKind k r

/-- The `CallCount`, for the batch loop. -/
def CallCountList (l : List Request) : Prop := panicFreeList l = true →
  ∀ (w : World) (n : Nat),
    (samplesList w n l).2.2 = false
  ∧ ∀ k : CommandKind,
      ((samplesList w n l).1.filter fun p => decide (p.1 = k)).length
        = callsOfKindList k l

/-- A panic-free request always produces a response. -/
def NoPanic (r : Request) : Prop :=
  ∀ (w : World) (n : Nat) (m : Metrics), panicFree r = true →
    ∃ (resp : Response) (m' : Metrics) (n' : Nat),
      form_response w n r m = (.resp resp, m', n')

/-- The batch loop over panic-free items produces one response per item, in
order, each being the dispatch result of the item at that position. -/
def BatchShape (l : List Request) : Prop :=
  ∀ (w : World) (n : Nat) (m : Metrics), panicFreeList l = true →
    ∃ (rs : List Response) (m' : Metrics) (n' : Nat),
      process_batch w n l m = (some rs, m', n')
      ∧ rs.length = l.length
      ∧ ∀ (i : Nat) (hi : i < l.length) (hr : i < rs.length),
          ∃ (ni : Nat) (mi : Metrics) (mi' : Metrics) (ni' : Nat),
            form_response w ni (l.get ⟨i, hi⟩) mi
              = (.resp (rs.get ⟨i, hr⟩), mi', ni')

/-- The outcome (response or panic) and the clock advance of a dispatch do
not depend on the contents of the metrics store. -/
def MetricsIndep (r : Request) : Prop :=
  ∀ (w : World) (n : Nat) (m₁ m₂ : Metrics),
    (form_response w n r m₁).1 = (form_response w n r m₂).1
  ∧ (form_response w n r m₁).2.2 = (form_response w n r m₂).2.2

/-- The `MetricsIndep`, for the batch loop. -/
def MetricsIndepList (l : List Request) : Prop :=
  ∀ (w : World) (n : Nat) (m₁ m₂ : Metrics),
    (process_batch w n l m₁).1 = (process_batch w n l m₂).1
  ∧ (process_batch w n l m₁).2.2 = (process_batch w n l m₂).2.2

/-- Well-formedness of a metrics store: a kind with count `0` has no
statistics, and a kind with positive count has all three statistics with
`min ≤ avg ≤ max`. -/
def metricsInv (m : Metrics) : Prop := ∀ k : CommandKind,
    (m.command_counts k = 0 →
      m.processing_time_min k = none ∧ m.processing_time_avg k = none
        ∧ m.processing_time_max k = none)
  ∧ (0 < m.command_counts k →
      ∃ mn av mx : ℚ, m.processing_time_min k = some mn
        ∧ m.processing_time_avg k = some av
        ∧ m.processing_time_max k = some mx ∧ mn ≤ av ∧ av ≤ mx)

lemma applyTrace_nil (m : Metrics) : applyTrace m [] = m := rfl

lemma applyTrace_cons (m : Metrics) (p : CommandKind × ℚ)
    (tr : List (CommandKind × ℚ)) :
    applyTrace m (p :: tr) = applyTrace (m.update p.1 p.2) tr := rfl

lemma applyTrace_append (m : Metrics) (tr tr' : List (CommandKind × ℚ)) :
    applyTrace m (tr ++ tr') = applyTrace (applyTrace m tr) tr' := by
  simp [applyTrace, List.foldl_append]

lemma Request.one_le_sizeOf (r : Request) : 1 ≤ sizeOf r := by
  cases r
  simp
  omega

lemma refines_bounded : ∀ b : Nat,
    (∀ r : Request, sizeOf r ≤ b → FRefines r)
  ∧ (∀ l : List Request, sizeOf l ≤ b → BRefines l) := by
  intro b
  induction b with
  | zero =>
    constructor
    · intro r hr
      have := r.one_le_sizeOf
      omega
    · intro l hl
      cases l with
      | nil => intro w n m; simp [process_batch, samplesList, applyTrace_nil]
      | cons r rest =>
        exfalso
        have h1 := r.one_le_sizeOf
        have h2 : sizeOf (r :: rest) = 1 + sizeOf r + sizeOf rest := by simp
        omega
  | succ b ih =>
    obtain ⟨ihP, ihQ⟩ := ih
    constructor
    · intro r hr w n m
      obtain ⟨u, c⟩ := r
      cases c with
      | ping =>
        simp [form_response, process_command, samples, Request.command,
          Command.kind, applyTrace_cons, applyTrace_nil]
      | echo p =>
        simp [form_response, process_command, samples, Request.command,
          Command.kind, applyTrace_cons, applyTrace_nil]
      | time =>
        simp [form_response, process_command, samples, Request.command,
          Command.kind, applyTrace_cons, applyTrace_nil]
      | calculate p =>
        cases hpc : process_command_calculate p with
        | ok v =>
          simp [form_response, process_command, samples, Request.command,
            Command.kind, applyTrace_cons, applyTrace_nil, hpc]
        | error e =>
          simp [form_response, process_command, samples, Request.command,
            Command.kind, applyTrace_cons, applyTrace_nil, hpc]
      | batch p =>
        match p with
        | none =>
          simp [form_response, process_command, samples, applyTrace_nil]
        | some (.error e) =>
          simp [form_response, process_command, samples, Request.command,
            Command.kind, applyTrace_nil]
        | some (.ok items) =>
          have hsz : sizeOf items ≤ b := by
            simp at hr
            omega
          obtain ⟨hq1, hq2, hq3⟩ := ihQ items hsz w (n + 1) m
          cases hpb : process_batch w (n + 1) items m with
          | mk o rest =>
            obtain ⟨m', n'⟩ := rest
            rw [hpb] at hq1 hq2 hq3
            simp at hq1 hq2
            cases o with
            | none =>
              simp at hq3
              simp [form_response, process_command, samples, Request.command,
                Command.kind, hpb, hq1, hq2, hq3]
            | some rs =>
              simp at hq3
              simp [form_response, process_command, samples, Request.command,
                Command.kind, hpb, hq1, hq2, hq3]
    · intro l hl w n m
      cases l with
      | nil => simp [process_batch, samplesList, applyTrace_nil]
      | cons r rest =>
        have hcs : sizeOf (r :: rest) = 1 + sizeOf r + sizeOf rest := by simp
        have h1 := r.one_le_sizeOf
        have hszr : sizeOf r ≤ b := by omega
        have hszrest : sizeOf rest ≤ b := by omega
        obtain ⟨hp1, hp2, hp3⟩ := ihP r hszr w n m
        cases hfr : form_response w n r m with
        | mk o rest' =>
          obtain ⟨m', n'⟩ := rest'
          rw [hfr] at hp1 hp2 hp3
          simp at hp1 hp2
          cases hs : samples w n r with
          | mk tr rest'' =>
            obtain ⟨ns, pan⟩ := rest''
            rw [hs] at hp1 hp2 hp3
            simp at hp1 hp2 hp3
            subst hp1
            subst hp2
            cases o with
            | panic =>
              have hpan : pan = true := by
                cases pan
                · simp at hp3
                · rfl
              subst hpan
              simp [process_batch, samplesList, hfr, hs]
            | resp resp =>
              have hpan : pan = false := by
                cases pan
                · rfl
                · simp at hp3
              subst hpan
              obtain ⟨hq1, hq2, hq3⟩ := ihQ rest hszrest w n' (applyTrace m tr)
              cases hpb : process_batch w n' rest (applyTrace m tr) with
              | mk o2 rest2 =>
                obtain ⟨m'', n''⟩ := rest2
                rw [hpb] at hq1 hq2 hq3
                simp at hq1 hq2
                cases o2 with
                | none =>
                  simp at hq3
                  simp [process_batch, samplesList, hfr, hs, hpb, hq1, hq2,
                    hq3, applyTrace_append]
                | some rs =>
                  simp at hq3
                  simp [process_batch, samplesList, hfr, hs, hpb, hq1, hq2,
                    hq3, applyTrace_append]

/-- Refinement instance for a single dispatch. -/
lemma form_response_refines (r : Request) : FRefines r :=
  (refines_bounded (sizeOf r)).1 r le_rfl

/-- Refinement instance for the batch loop. -/
lemma process_batch_refines (l : List Request) : BRefines l :=
  (refines_bounded (sizeOf l)).2 l le_rfl

lemma Metrics.update_counts_self (m : Metrics) (k : CommandKind) (d : ℚ) :
    (m.update k d).command_counts k = m.command_counts k + 1 := by
  simp [Metrics.update]

lemma Metrics.update_frame (m : Metrics) (k0 : CommandKind) (d : ℚ)
    (k : CommandKind) (hk : k ≠ k0) :
    ((m.update k0 d).command_counts k = m.command_counts k)
  ∧ ((m.update k0 d).processing_time_min k = m.processing_time_min k)
  ∧ ((m.update k0 d).processing_time_avg k = m.processing_time_avg k)
  ∧ ((m.update k0 d).processing_time_max k = m.processing_time_max k) := by
  simp [Metrics.update, hk]

lemma applyTrace_counts (tr : List (CommandKind × ℚ)) :
    ∀ (m : Metrics) (k : CommandKind),
      (applyTrace m tr).command_counts k
        = m.command_counts k + (tr.filter fun p => decide (p.1 = k)).length := by
  induction tr with
  | nil => intro m k; simp [applyTrace]
  | cons p tr ih =>
    intro m k
    rw [applyTrace_cons, ih]
    by_cases hp : p.1 = k
    · subst hp
      simp [Metrics.update_counts_self, List.filter]
      omega
    · have hne : k ≠ p.1 := fun hc => hp hc.symm
      rw [(Metrics.update_frame m p.1 p.2 k hne).1]
      simp [List.filter, hp]

lemma applyTrace_frame (tr : List (CommandKind × ℚ)) (k : CommandKind)
    (hk : ∀ p ∈ tr, p.1 ≠ k) : ∀ m : Metrics,
    ((applyTrace m tr).command_counts k = m.command_counts k)
  ∧ ((applyTrace m tr).processing_time_min k = m.processing_time_min k)
  ∧ ((applyTrace m tr).processing_time_avg k = m.processing_time_avg k)
  ∧ ((applyTrace m tr).processing_time_max k = m.processing_time_max k) := by
  induction tr with
  | nil => intro m; simp [applyTrace]
  | cons p tr ih =>
    intro m
    have hp : p.1 ≠ k := hk p (by simp)
    have hrest : ∀ q ∈ tr, q.1 ≠ k := fun q hq => hk q (by simp [hq])
    rw [applyTrace_cons]
    obtain ⟨h1, h2, h3, h4⟩ := ih hrest (m.update p.1 p.2)
    obtain ⟨g1, g2, g3, g4⟩ :=
      Metrics.update_frame m p.1 p.2 k (fun hc => hp hc.symm)
    exact ⟨h1.trans g1, h2.trans g2, h3.trans g3, h4.trans g4⟩

/-- The sample trace of a non-batch dispatch: exactly one sample with the
command's kind and this event's clock value, no panic. -/
lemma samples_nonbatch (w : World) (n : Nat) (u : Uuid) (c : Command)
    (hc : c.kind ≠ .batch) :
    samples w n (.mk u c) = ([(c.kind, w.dur n)], n + 1, false) := by
  cases c with
  | ping => simp [samples, Command.kind]
  | echo p => simp [samples, Command.kind]
  | time => simp [samples, Command.kind]
  | calculate p => simp [samples, Command.kind]
  | batch p => simp [Command.kind] at hc

lemma noBatch_bounded : ∀ b : Nat,
    (∀ r : Request, sizeOf r ≤ b → NoBatchSamples r)
  ∧ (∀ l : List Request, sizeOf l ≤ b → NoBatchSamplesList l) := by
  intro b
  induction b with
  | zero =>
    constructor
    · intro r hr
      have := r.one_le_sizeOf
      omega
    · intro l hl
      cases l with
      | nil => intro w n p hp; simp [samplesList] at hp
      | cons r rest =>
        exfalso
        have h1 := r.one_le_sizeOf
        have h2 : sizeOf (r :: rest) = 1 + sizeOf r + sizeOf rest := by simp
        omega
  | succ b ih =>
    obtain ⟨ihP, ihQ⟩ := ih
    constructor
    · intro r hr w n p hp
      obtain ⟨u, c⟩ := r
      cases c with
      | ping =>
        simp [samples, Command.kind] at hp
        simp [hp]
      | echo q =>
        simp [samples, Command.kind] at hp
        simp [hp]
      | time =>
        simp [samples, Command.kind] at hp
        simp [hp]
      | calculate q =>
        simp [samples, Command.kind] at hp
        simp [hp]
      | batch q =>
        match q with
        | none => simp [samples] at hp
        | some (.error e) => simp [samples] at hp
        | some (.ok items) =>
          have hsz : sizeOf items ≤ b := by
            simp at hr
            omega
          simp [samples] at hp
          exact ihQ items hsz w (n + 1) p hp
    · intro l hl w n p hp
      cases l with
      | nil => simp [samplesList] at hp
      | cons r rest =>
        have hcs : sizeOf (r :: rest) = 1 + sizeOf r + sizeOf rest := by simp
        have h1 := r.one_le_sizeOf
        have hszr : sizeOf r ≤ b := by omega
        have hszrest : sizeOf rest ≤ b := by omega
        cases hs : samples w n r with
        | mk tr rest' =>
          obtain ⟨ns, pan⟩ := rest'
          cases pan with
          | true =>
            simp [samplesList, hs] at hp
            have := ihP r hszr w n p
            rw [hs] at this
            exact this hp
          | false =>
            simp [samplesList, hs] at hp
            cases hp with
            | inl hp1 =>
              have := ihP r hszr w n p
              rw [hs] at this
              exact this hp1
            | inr hp2 => exact ihQ rest hszrest w ns p hp2

/-- Any single dispatch leaves every sample trace free of `Batch`-kind
entries. -/
lemma samples_no_batch (r : Request) : NoBatchSamples r :=
  (noBatch_bounded (sizeOf r)).1 r le_rfl

lemma callCount_bounded : ∀ b : Nat,
    (∀ r : Request, sizeOf r ≤ b → CallCount r)
  ∧ (∀ l : List Request, sizeOf l ≤ b → CallCountList l) := by
  intro b
  induction b with
  | zero =>
    constructor
    · intro r hr
      have := r.one_le_sizeOf
      omega
    · intro l hl
      cases l with
      | nil =>
        intro hpf w n
        simp [samplesList, callsOfKindList]
      | cons r rest =>
        exfalso
        have h1 := r.one_le_sizeOf
        have h2 : sizeOf (r :: rest) = 1 + sizeOf r + sizeOf rest := by simp
        omega
  | succ b ih =>
    obtain ⟨ihP, ihQ⟩ := ih
    constructor
    · intro r hr hpf w n
      obtain ⟨u, c⟩ := r
      cases c with
      | ping =>
        simp [samples, Command.kind, callsOfKind, List.filter]
        intro k
        by_cases hk : CommandKind.ping = k <;> simp [hk]
      | echo q =>
        simp [samples, Command.kind, callsOfKind, List.filter]
        intro k
        by_cases hk : CommandKind.echo = k <;> simp [hk]
      | time =>
        simp [samples, Command.kind, callsOfKind, List.filter]
        intro k
        by_cases hk : CommandKind.time = k <;> simp [hk]
      | calculate q =>
        simp [samples, Command.kind, callsOfKind, List.filter]
        intro k
        by_cases hk : CommandKind.calculate = k <;> simp [hk]
      | batch q =>
        match q with
        | none => simp [panicFree] at hpf
        | some (.error e) =>
          simp [samples, callsOfKind]
        | some (.ok items) =>
          have hsz : sizeOf items ≤ b := by
            simp at hr
            omega
          have hpfl : panicFreeList items = true := by
            simpa [panicFree] using hpf
          obtain ⟨hq1, hq2⟩ := ihQ items hsz hpfl w (n + 1)
          constructor
          · simpa [samples] using hq1
          · intro k
            simpa [samples, callsOfKind] using hq2 k
    · intro l hl hpf w n
      cases l with
      | nil => simp [samplesList, callsOfKindList]
      | cons r rest =>
        have hcs : sizeOf (r :: rest) = 1 + sizeOf r + sizeOf rest := by simp
        have h1 := r.one_le_sizeOf
        have hszr : sizeOf r ≤ b := by omega
        have hszrest : sizeOf rest ≤ b := by omega
        have hpfr : panicFree r = true := by
          simp [panicFreeList] at hpf
          exact hpf.1
        have hpfrest : panicFreeList rest = true := by
          simp [panicFreeList] at hpf
          exact hpf.2
        obtain ⟨hr1, hr2⟩ := ihP r hszr hpfr w n
        cases hs : samples w n r with
        | mk tr rest' =>
          obtain ⟨ns, pan⟩ := rest'
          rw [hs] at hr1 hr2
          simp at hr1
          subst hr1
          obtain ⟨hq1, hq2⟩ := ihQ rest hszrest hpfrest w ns
          constructor
          · simpa [samplesList, hs] using hq1
          · intro k
            have := hr2 k
            simp at this
            simp [samplesList, hs, callsOfKindList, List.filter_append, this,
              hq2 k]

/-- The `CallCount` instance for a single dispatch. -/
lemma form_response_callCount (r : Request) : CallCount r :=
  (callCount_bounded (sizeOf r)).1 r le_rfl

/-- The `CallCountList` instance for the batch loop. -/
lemma process_batch_callCount (l : List Request) : CallCountList l :=
  (callCount_bounded (sizeOf l)).2 l le_rfl

/-- Whenever `form_response` returns a response (rather than panicking),
that response carries the request's `request_id`: `Ok` responses copy it,
`Error` responses wrap it in `Some`. -/
lemma form_response_requestId {w : World} {n : Nat} {r : Request}
    {m : Metrics} {resp : Response} {m' : Metrics} {n' : Nat}
    (h : form_response w n r m = (.resp resp, m', n')) :
    resp.requestId = some r.request_id := by
  rw [form_response] at h
  cases hpc : process_command w n r m with
  | mk o rest =>
    obtain ⟨m2, n2⟩ := rest
    rw [hpc] at h
    cases o with
    | panic => simp at h
    | ok v =>
      by_cases hb : r.command.kind = .batch <;> simp [hb] at h <;>
        obtain ⟨h1, -⟩ := h <;> rw [← h1] <;> simp [Response.requestId]
    | err e =>
      by_cases hb : r.command.kind = .batch <;> simp [hb] at h <;>
        obtain ⟨h1, -⟩ := h <;> rw [← h1] <;> simp [Response.requestId]

lemma noPanic_bounded : ∀ b : Nat,
    (∀ r : Request, sizeOf r ≤ b → NoPanic r)
  ∧ (∀ l : List Request, sizeOf l ≤ b → BatchShape l) := by
  intro b
  induction b with
  | zero =>
    constructor
    · intro r hr
      have := r.one_le_sizeOf
      omega
    · intro l hl
      cases l with
      | nil =>
        intro w n m hpf
        refine ⟨[], m, n, by simp [process_batch], rfl, ?_⟩
        intro i hi
        simp at hi
      | cons r rest =>
        exfalso
        have h1 := r.one_le_sizeOf
        have h2 : sizeOf (r :: rest) = 1 + sizeOf r + sizeOf rest := by simp
        omega
  | succ b ih =>
    obtain ⟨ihP, ihQ⟩ := ih
    constructor
    · intro r hr w n m hpf
      obtain ⟨u, c⟩ := r
      cases c with
      | ping =>
        exact ⟨_, _, _, by
          simp [form_response, process_command, Request.command, Command.kind]
          exact ⟨rfl, rfl, rfl⟩⟩
      | echo q =>
        exact ⟨_, _, _, by
          simp [form_response, process_command, Request.command, Command.kind]
          exact ⟨rfl, rfl, rfl⟩⟩
      | time =>
        exact ⟨_, _, _, by
          simp [form_response, process_command, Request.command, Command.kind]
          exact ⟨rfl, rfl, rfl⟩⟩
      | calculate q =>
        cases hpc : process_command_calculate q with
        | ok v =>
          exact ⟨_, _, _, by
            simp [form_response, process_command, Request.command,
              Command.kind, hpc]
            exact ⟨rfl, rfl, rfl⟩⟩
        | error e =>
          exact ⟨_, _, _, by
            simp [form_response, process_command, Request.command,
              Command.kind, hpc]
            exact ⟨rfl, rfl, rfl⟩⟩
      | batch q =>
        match q with
        | none => simp [panicFree] at hpf
        | some (.error e) =>
          exact ⟨_, _, _, by
            simp [form_response, process_command, Request.command,
              Command.kind]
            exact ⟨rfl, rfl, rfl⟩⟩
        | some (.ok items) =>
          have hsz : sizeOf items ≤ b := by
            simp at hr
            omega
          have hpfl : panicFreeList items = true := by
            simpa [panicFree] using hpf
          obtain ⟨rs, m', n', hpb, -, -⟩ := ihQ items hsz w (n + 1) m hpfl
          exact ⟨_, _, _, by
            simp [form_response, process_command, Request.command,
              Command.kind, hpb]
            exact ⟨rfl, rfl, rfl⟩⟩
    · intro l hl w n m hpf
      cases l with
      | nil =>
        refine ⟨[], m, n, by simp [process_batch], rfl, ?_⟩
        intro i hi
        simp at hi
      | cons r rest =>
        have hcs : sizeOf (r :: rest) = 1 + sizeOf r + sizeOf rest := by simp
        have h1 := r.one_le_sizeOf
        have hszr : sizeOf r ≤ b := by omega
        have hszrest : sizeOf rest ≤ b := by omega
        have hpfr : panicFree r = true := by
          simp [panicFreeList] at hpf
          exact hpf.1
        have hpfrest : panicFreeList rest = true := by
          simp [panicFreeList] at hpf
          exact hpf.2
        obtain ⟨resp, m', n', hfr⟩ := ihP r hszr w n m hpfr
        obtain ⟨rs, m'', n'', hpb, hlen, hentry⟩ :=
          ihQ rest hszrest w n' m' hpfrest
        refine ⟨resp :: rs, m'', n'', ?_, by simp [hlen], ?_⟩
        · simp [process_batch, hfr, hpb]
        · intro i hi hr
          cases i with
          | zero => exact ⟨n, m, m', n', by simpa using hfr⟩
          | succ i =>
            have hi' : i < rest.length := by simpa using hi
            have hr' : i < rs.length := by simpa using hr
            obtain ⟨ni, mi, mi', ni', hform⟩ := hentry i hi' hr'
            exact ⟨ni, mi, mi', ni', by simpa using hform⟩

/-- The `NoPanic` instance for a single dispatch. -/
lemma form_response_noPanic (r : Request) : NoPanic r :=
  (noPanic_bounded (sizeOf r)).1 r le_rfl

/-- The `BatchShape` instance for the batch loop. -/
lemma process_batch_shape (l : List Request) : BatchShape l :=
  (noPanic_bounded (sizeOf l)).2 l le_rfl

lemma metricsIndep_bounded : ∀ b : Nat,
    (∀ r : Request, sizeOf r ≤ b → MetricsIndep r)
  ∧ (∀ l : List Request, sizeOf l ≤ b → MetricsIndepList l) := by
  intro b
  induction b with
  | zero =>
    constructor
    · intro r hr
      have := r.one_le_sizeOf
      omega
    · intro l hl
      cases l with
      | nil => intro w n m₁ m₂; simp [process_batch]
      | cons r rest =>
        exfalso
        have h1 := r.one_le_sizeOf
        have h2 : sizeOf (r :: rest) = 1 + sizeOf r + sizeOf rest := by simp
        omega
  | succ b ih =>
    obtain ⟨ihP, ihQ⟩ := ih
    constructor
    · intro r hr w n m₁ m₂
      obtain ⟨u, c⟩ := r
      cases c with
      | ping =>
        simp [form_response, process_command, Request.command, Command.kind]
      | echo q =>
        simp [form_response, process_command, Request.command, Command.kind]
      | time =>
        simp [form_response, process_command, Request.command, Command.kind]
      | calculate q =>
        cases hpc : process_command_calculate q with
        | ok v =>
          simp [form_response, process_command, Request.command,
            Command.kind, hpc]
        | error e =>
          simp [form_response, process_command, Request.command,
            Command.kind, hpc]
      | batch q =>
        match q with
        | none => simp [form_response, process_command]
        | some (.error e) =>
          simp [form_response, process_command, Request.command,
            Command.kind]
        | some (.ok items) =>
          have hsz : sizeOf items ≤ b := by
            simp at hr
            omega
          obtain ⟨hq1, hq2⟩ := ihQ items hsz w (n + 1) m₁ m₂
          cases hpb1 : process_batch w (n + 1) items m₁ with
          | mk o1 rest1 =>
            obtain ⟨m1', n1'⟩ := rest1
            cases hpb2 : process_batch w (n + 1) items m₂ with
            | mk o2 rest2 =>
              obtain ⟨m2', n2'⟩ := rest2
              rw [hpb1, hpb2] at hq1 hq2
              simp at hq1 hq2
              subst hq1
              subst hq2
              cases o1 with
              | none =>
                simp [form_response, process_command, Request.command,
                  Command.kind, hpb1, hpb2]
              | some rs =>
                simp [form_response, process_command, Request.command,
                  Command.kind, hpb1, hpb2]
    · intro l hl w n m₁ m₂
      cases l with
      | nil => simp [process_batch]
      | cons r rest =>
        have hcs : sizeOf (r :: rest) = 1 + sizeOf r + sizeOf rest := by simp
        have h1 := r.one_le_sizeOf
        have hszr : sizeOf r ≤ b := by omega
        have hszrest : sizeOf rest ≤ b := by omega
        obtain ⟨hp1, hp2⟩ := ihP r hszr w n m₁ m₂
        cases hfr1 : form_response w n r m₁ with
        | mk o1 rest1 =>
          obtain ⟨m1', n1'⟩ := rest1
          cases hfr2 : form_response w n r m₂ with
          | mk o2 rest2 =>
            obtain ⟨m2', n2'⟩ := rest2
            rw [hfr1, hfr2] at hp1 hp2
            simp at hp1 hp2
            subst hp1
            subst hp2
            cases o1 with
            | panic => simp [process_batch, hfr1, hfr2]
            | resp resp =>
              obtain ⟨hq1, hq2⟩ := ihQ rest hszrest w n1' m1' m2'
              cases hpb1 : process_batch w n1' rest m1' with
              | mk o1' rest1' =>
                obtain ⟨m1'', n1''⟩ := rest1'
                cases hpb2 : process_batch w n1' rest m2' with
                | mk o2' rest2' =>
                  obtain ⟨m2'', n2''⟩ := rest2'
                  rw [hpb1, hpb2] at hq1 hq2
                  simp at hq1 hq2
                  subst hq1
                  subst hq2
                  cases o1' with
                  | none => simp [process_batch, hfr1, hfr2, hpb1, hpb2]
                  | some rs => simp [process_batch, hfr1, hfr2, hpb1, hpb2]

/-- The `MetricsIndep` instance for a single dispatch. -/
lemma form_response_metricsIndep (r : Request) : MetricsIndep r :=
  (metricsIndep_bounded (sizeOf r)).1 r le_rfl

lemma metricsInv_empty : metricsInv Metrics.empty := by
  intro k
  simp [Metrics.empty]

lemma metricsInv_update {m : Metrics} (hm : metricsInv m) (k0 : CommandKind)
    (d : ℚ) : metricsInv (m.update k0 d) := by
  intro k
  by_cases hk : k = k0
  · subst hk
    constructor
    · intro h0
      rw [Metrics.update_counts_self] at h0
      omega
    · intro hpos
      rcases hc : m.command_counts k with _ | c
      · obtain ⟨he, -⟩ := hm k
        obtain ⟨e1, e2, e3⟩ := he hc
        refine ⟨d, d, d, ?_, ?_, ?_, le_rfl, le_rfl⟩ <;>
          simp [Metrics.update, e1, e2, e3, hc]
      · obtain ⟨-, hs⟩ := hm k
        obtain ⟨mn, av, mx, e1, e2, e3, hle1, hle2⟩ := hs (by omega)
        have hposc : (0 : ℚ) < (c : ℚ) + 2 := by positivity
        have hminle : min mn d ≤ (av * ((c : ℚ) + 1) + d) / ((c : ℚ) + 2) := by
          rw [le_div_iff₀ hposc]
          have g1 : min mn d ≤ av := le_trans (min_le_left _ _) hle1
          have g2 : min mn d ≤ d := min_le_right _ _
          nlinarith
        have hmaxge : (av * ((c : ℚ) + 1) + d) / ((c : ℚ) + 2) ≤ max mx d := by
          rw [div_le_iff₀ hposc]
          have g1 : av ≤ max mx d := le_trans hle2 (le_max_left _ _)
          have g2 : d ≤ max mx d := le_max_right _ _
          nlinarith
        refine ⟨min mn d, (av * ((c : ℚ) + 1) + d) / ((c : ℚ) + 2), max mx d,
          ?_, ?_, ?_, hminle, hmaxge⟩
        · simp [Metrics.update, e1]
        · simp [Metrics.update, e2, hc]
          ring_nf
        · simp [Metrics.update, e3]
  · obtain ⟨f1, f2, f3, f4⟩ := Metrics.update_frame m k0 d k hk
    obtain ⟨h0, hs⟩ := hm k
    constructor
    · intro hz
      rw [f1] at hz
      obtain ⟨e1, e2, e3⟩ := h0 hz
      exact ⟨f2.trans e1, f3.trans e2, f4.trans e3⟩
    · intro hp
      rw [f1] at hp
      obtain ⟨mn, av, mx, e1, e2, e3, l1, l2⟩ := hs hp
      exact ⟨mn, av, mx, f2.trans e1, f3.trans e2, f4.trans e3, l1, l2⟩

lemma metricsInv_applyTrace (tr : List (CommandKind × ℚ)) :
    ∀ m : Metrics, metricsInv m → metricsInv (applyTrace m tr) := by
  induction tr with
  | nil => intro m hm; simpa [applyTrace] using hm
  | cons p tr ih =>
    intro m hm
    rw [applyTrace_cons]
    exact ih _ (metricsInv_update hm p.1 p.2)

lemma runAll_counts (w : World) (reqs : List Request) :
    ∀ (n : Nat) (m : Metrics) (k : CommandKind),
      (∀ r ∈ reqs, panicFree r = true) →
      (runAll w n reqs m).1.command_counts k
        = m.command_counts k + (reqs.map (callsOfKind k)).sum := by
  induction reqs with
  | nil => intro n m k _; simp [runAll]
  | cons r rest ih =>
    intro n m k hpf
    have hpfr : panicFree r = true := hpf r (by simp)
    have hpfrest : ∀ x ∈ rest, panicFree x = true :=
      fun x hx => hpf x (by simp [hx])
    cases hfr : form_response w n r m with
    | mk o rest' =>
      obtain ⟨m', n'⟩ := rest'
      have hrun : runAll w n (r :: rest) m = runAll w n' rest m' := by
        simp [runAll, hfr]
      obtain ⟨hm', -, -⟩ := form_response_refines r w n m
      rw [hfr] at hm'
      simp at hm'
      obtain ⟨-, hcnt⟩ := form_response_callCount r hpfr w n
      have : m'.command_counts k = m.command_counts k + callsOfKind k r := by
        rw [hm', applyTrace_counts, hcnt k]
      rw [hrun, ih n' m' k hpfrest, this]
      simp
      omega

lemma runAll_inv (w : World) (reqs : List Request) :
    ∀ (n : Nat) (m : Metrics), metricsInv m →
      metricsInv (runAll w n reqs m).1 := by
  induction reqs with
  | nil => intro n m hm; simpa [runAll] using hm
  | cons r rest ih =>
    intro n m hm
    cases hfr : form_response w n r m with
    | mk o rest' =>
      obtain ⟨m', n'⟩ := rest'
      have hrun : runAll w n (r :: rest) m = runAll w n' rest m' := by
        simp [runAll, hfr]
      obtain ⟨hm', -, -⟩ := form_response_refines r w n m
      rw [hfr] at hm'
      simp at hm'
      rw [hrun]
      exact ih n' m' (hm' ▸ metricsInv_applyTrace _ m hm)

/-- C4: one `Metrics::update(k, d)` call increments `count[k]` by exactly 1
(from 0 if absent, the counts map defaulting to 0), sets `min[k]` to `d` if
absent else to `min(old, d)`, sets `max[k]` to `d` if absent else to
`max(old, d)`, and sets `avg[k]` to `d` if absent else to the closed-form
mean `(old_avg * (count - 1) + d) / count` for the incremented count —
exactly, in this exact-rational model of `f64`. -/
theorem metrics_update_single_call (m : Metrics) (k : CommandKind) (d : ℚ) :
    ((m.update k d).command_counts k = m.command_counts k + 1)
  ∧ ((m.update k d).processing_time_min k
      = some (match m.processing_time_min k with
          | none => d
          | some old => min old d))
  ∧ ((m.update k d).processing_time_max k
      = some (match m.processing_time_max k with
          | none => d
          | some old => max old d))
  ∧ (m.processing_time_avg k = none →
      (m.update k d).processing_time_avg k = some d)
  ∧ (∀ old : ℚ, m.processing_time_avg k = some old →
      (m.update k d).processing_time_avg k
        = some ((old * (((m.command_counts k + 1 : ℚ)) - 1) + d)
            / (m.command_counts k + 1 : ℚ))) := by
  refine ⟨by simp [Metrics.update], by simp [Metrics.update],
    by simp [Metrics.update], ?_, ?_⟩
  · intro hnone
    simp [Metrics.update, hnone]
  · intro old hold
    simp [Metrics.update, hold]

/-- Witness for C4 at a concrete store: after recording 2 ms and then 4 ms
for `ping`, the average is 3 ms. -/
theorem metrics_update_single_call_witness :
    ((Metrics.empty.update .ping 2).update .ping 4).processing_time_avg .ping
      = some 3 := by
  have h := (metrics_update_single_call (Metrics.empty.update .ping 2)
    .ping 4).2.2.2.2 2 (by simp [Metrics.empty, Metrics.update])
  rw [h]
  norm_num
  simp [Metrics.empty, Metrics.update]
  norm_num

/-- C9: dispatching an `Echo` request whose payload field is absent succeeds
with the JSON value `null` (`payload.unwrap_or_default()`), and the whole
dispatch result is identical to that of an explicit `Echo(null)`. -/
theorem echo_missing_payload_yields_null (w : World) (n : Nat) (u : Uuid)
    (m : Metrics) :
    form_response w n (.mk u (.echo none)) m
      = (.resp (.ok ⟨u, .ok, .null⟩), m.update .echo (w.dur n), n + 1)
  ∧ form_response w n (.mk u (.echo none)) m
      = form_response w n (.mk u (.echo (some .null))) m := by
  constructor <;>
    simp [form_response, process_command, Request.command, Request.request_id,
      Command.kind]

/-- C2 (failing side): the dispatcher panics on a structurally valid
request — `{"command": "batch"}` with no `payload` field reaches
`request.payload.unwrap()` in `process_command` and panics instead of
producing a typed `Error` response. -/
theorem batch_missing_payload_panics :
    (form_response ⟨fun _ => 0, fun _ => ""⟩ 0
        (.mk "00000000-0000-0000-0000-000000000000" (.batch none))
        Metrics.empty).1 = .panic := by
  simp [form_response, process_command]

/-- C10: the response (and panic behaviour and clock advance) of a dispatch
is the same for any two contents of the shared metrics store; the store
influences only the recorded statistics, never the returned value. -/
theorem response_independent_of_metrics (w : World) (n : Nat) (r : Request)
    (m₁ m₂ : Metrics) :
    (form_response w n r m₁).1 = (form_response w n r m₂).1
  ∧ (form_response w n r m₁).2.2 = (form_response w n r m₂).2.2 :=
  form_response_metricsIndep r w n m₁ m₂

/-- C7: with a decoded `Calculate` payload, `divide` fails exactly when
`b == 0.0` (with error text `"division by zero"`, surfaced by dispatch as a
typed `Error` response carrying the request id), and `add`, `subtract`,
`multiply` and non-zero `divide` always succeed with the arithmetic result
(IEEE-754 doubles modelled as exact rationals; the special values NaN and
infinity have no counterpart in this model). -/
theorem calculate_divide_by_zero (a b : ℚ) :
    ((∃ e, process_command_calculate (some (.ok ⟨.divide, a, b⟩)) = .error e)
      ↔ b = 0)
  ∧ (b = 0 → process_command_calculate (some (.ok ⟨.divide, a, b⟩))
      = .error "division by zero")
  ∧ (b ≠ 0 → process_command_calculate (some (.ok ⟨.divide, a, b⟩))
      = .ok (.obj [("result", .num (a / b))]))
  ∧ (process_command_calculate (some (.ok ⟨.add, a, b⟩))
      = .ok (.obj [("result", .num (a + b))]))
  ∧ (process_command_calculate (some (.ok ⟨.subtract, a, b⟩))
      = .ok (.obj [("result", .num (a - b))]))
  ∧ (process_command_calculate (some (.ok ⟨.multiply, a, b⟩))
      = .ok (.obj [("result", .num (a * b))]))
  ∧ (∀ (w : World) (n : Nat) (u : Uuid) (m : Metrics), b = 0 →
      form_response w n (.mk u (.calculate (some (.ok ⟨.divide, a, b⟩)))) m
        = (.resp (.err ⟨some u, .error, "division by zero"⟩),
            m.update .calculate (w.dur n), n + 1)) := by
  refine ⟨?_, ?_, ?_, ?_, ?_, ?_, ?_⟩
  · constructor
    · intro ⟨e, he⟩
      by_cases hb : b = 0
      · exact hb
      · simp [process_command_calculate, hb] at he
    · intro hb
      exact ⟨"division by zero", by simp [process_command_calculate, hb]⟩
  · intro hb
    simp [process_command_calculate, hb]
  · intro hb
    simp [process_command_calculate, hb]
  · simp [process_command_calculate]
  · simp [process_command_calculate]
  · simp [process_command_calculate]
  · intro w n u m hb
    simp [form_response, process_command, process_command_calculate, hb,
      Request.command, Request.request_id, Command.kind]

/-- Witness for C7: dispatching `Calculate{Divide, 5, 0}` returns the typed
`Error` response `"division by zero"` with the request's id. -/
theorem calculate_divide_by_zero_witness :
    form_response ⟨fun _ => 1, fun _ => ""⟩ 0
        (.mk "id-1" (.calculate (some (.ok ⟨.divide, 5, 0⟩)))) Metrics.empty
      = (.resp (.err ⟨some "id-1", .error, "division by zero"⟩),
          Metrics.empty.update .calculate 1, 1) :=
  (calculate_divide_by_zero 5 0).2.2.2.2.2.2 ⟨fun _ => 1, fun _ => ""⟩ 0
    "id-1" Metrics.empty rfl

lemma panicFreeList_iff (l : List Request) :
    panicFreeList l = true ↔ ∀ r ∈ l, panicFree r = true := by
  induction l with
  | nil => simp [panicFreeList]
  | cons r rest ih => simp [panicFreeList, ih]

lemma callsOfKindList_eq_sum (k : CommandKind) (l : List Request) :
    callsOfKindList k l = (l.map (callsOfKind k)).sum := by
  induction l with
  | nil => simp [callsOfKindList]
  | cons r rest ih => simp [callsOfKindList, ih]

/-- C6: (1) the metrics store after any dispatch equals the initial store
with the dispatch's sample trace applied, so every recorded sample comes
from the trace; (2) a non-`Batch` dispatch records exactly one sample, its
own kind with its own clock value, on success and failure alike; (3) no
sample in any trace has kind `Batch`, and consequently (4) every dispatch
leaves the `Batch`-kind entries of the store unchanged; (5) a `Batch`
dispatch over panic-free items adds, per kind, exactly the samples of its
items (including items that are themselves batches, whose own inner items
are recorded). -/
theorem dispatch_metrics_effect (w : World) (n : Nat) (r : Request)
    (m : Metrics) :
    ((form_response w n r m).2.1 = applyTrace m (samples w n r).1)
  ∧ (r.command.kind ≠ .batch →
      (samples w n r).1 = [(r.command.kind, w.dur n)]
      ∧ (form_response w n r m).2.1 = m.update r.command.kind (w.dur n))
  ∧ (∀ p ∈ (samples w n r).1, p.1 ≠ .batch)
  ∧ ((form_response w n r m).2.1.command_counts .batch
        = m.command_counts .batch
      ∧ (form_response w n r m).2.1.processing_time_min .batch
        = m.processing_time_min .batch
      ∧ (form_response w n r m).2.1.processing_time_avg .batch
        = m.processing_time_avg .batch
      ∧ (form_response w n r m).2.1.processing_time_max .batch
        = m.processing_time_max .batch)
  ∧ (∀ (u : Uuid) (items : List Request),
      r = .mk u (.batch (some (.ok items))) →
      (∀ x ∈ items, panicFree x = true) →
      ∀ k : CommandKind,
        (form_response w n r m).2.1.command_counts k
          = m.command_counts k + (items.map (callsOfKind k)).sum) := by
  obtain ⟨href, -, -⟩ := form_response_refines r w n m
  refine ⟨href, ?_, samples_no_batch r w n, ?_, ?_⟩
  · intro hnb
    obtain ⟨u, c⟩ := r
    have hs := samples_nonbatch w n u c (by simpa [Request.command] using hnb)
    refine ⟨by rw [hs]; simp [Request.command], ?_⟩
    rw [href, hs]
    simp [applyTrace_cons, applyTrace_nil, Request.command]
  · obtain ⟨g1, g2, g3, g4⟩ :=
      applyTrace_frame (samples w n r).1 .batch (samples_no_batch r w n) m
    rw [href]
    exact ⟨g1, g2, g3, g4⟩
  · intro u items hreq hpf k
    subst hreq
    have hpfl : panicFreeList items = true := (panicFreeList_iff items).2 hpf
    have hpfb : panicFree (.mk u (.batch (some (.ok items)))) = true := by
      simpa [panicFree] using hpfl
    obtain ⟨-, hcnt⟩ :=
      form_response_callCount (.mk u (.batch (some (.ok items)))) hpfb w n
    rw [href, applyTrace_counts, hcnt k]
    simp [callsOfKind, callsOfKindList_eq_sum]

/-- Witness for C6 at a concrete batch: dispatching
`Batch([Ping, Echo])` from the empty store records one `ping` sample and
one `echo` sample, and no `batch` sample. -/
theorem dispatch_metrics_effect_witness :
    ((form_response ⟨fun i => i, fun _ => ""⟩ 0
        (.mk "b" (.batch (some (.ok
          [.mk "i1" .ping, .mk "i2" (.echo (some (.str "x")))]))))
        Metrics.empty).2.1.command_counts .ping = 0 + 1)
  ∧ ((form_response ⟨fun i => i, fun _ => ""⟩ 0
        (.mk "b" (.batch (some (.ok
          [.mk "i1" .ping, .mk "i2" (.echo (some (.str "x")))]))))
        Metrics.empty).2.1.command_counts .batch = 0) := by
  have h := dispatch_metrics_effect ⟨fun i => i, fun _ => ""⟩ 0
    (.mk "b" (.batch (some (.ok
      [.mk "i1" .ping, .mk "i2" (.echo (some (.str "x")))]))))
    Metrics.empty
  constructor
  · have hc := h.2.2.2.2 "b"
      [.mk "i1" .ping, .mk "i2" (.echo (some (.str "x")))] rfl
      (by
        intro x hx
        simp at hx
        rcases hx with h1 | h1 <;> subst h1 <;> simp [panicFree])
      CommandKind.ping
    rw [hc]
    simp [Metrics.empty, callsOfKind, Command.kind]
  · have hb := h.2.2.2.1.1
    rw [hb]
    rfl

/-- C1: dispatching a `Batch` whose items are well-formed (panic-free)
requests always yields an `Ok` response whose value is the array of the
items' own dispatch responses, one per item in input order; an item whose
dispatch fails contributes an `Error` entry carrying that item's
`request_id` at its position, without aborting the siblings or the batch. -/
theorem batch_dispatch_per_item (w : World) (n : Nat) (m : Metrics)
    (u : Uuid) (items : List Request)
    (h : ∀ r ∈ items, panicFree r = true) :
    ∃ (rs : List Response) (m' : Metrics) (n' : Nat),
      form_response w n (.mk u (.batch (some (.ok items)))) m
        = (.resp (.ok ⟨u, .ok, .arr (rs.map Response.toJson)⟩), m', n')
      ∧ rs.length = items.length
      ∧ (∀ (i : Nat) (hi : i < items.length) (hr : i < rs.length),
          (rs.get ⟨i, hr⟩).requestId = some ((items.get ⟨i, hi⟩).request_id))
      ∧ (∀ (i : Nat) (hi : i < items.length) (hr : i < rs.length),
          ∃ (ni : Nat) (mi mi' : Metrics) (ni' : Nat),
            form_response w ni (items.get ⟨i, hi⟩) mi
              = (.resp (rs.get ⟨i, hr⟩), mi', ni')) := by
  have hpfl : panicFreeList items = true := (panicFreeList_iff items).2 h
  obtain ⟨rs, m', n', hpb, hlen, hentry⟩ :=
    process_batch_shape items w (n + 1) m hpfl
  refine ⟨rs, m', n', ?_, hlen, ?_, hentry⟩
  · simp [form_response, process_command, Request.command,
      Request.request_id, Command.kind, hpb]
  · intro i hi hr
    obtain ⟨ni, mi, mi', ni', hform⟩ := hentry i hi hr
    exact form_response_requestId hform

/-- Witness for C1: a batch of a ping, an echo, and a division by zero is
`Ok` with three entries carrying the items' ids. -/
theorem batch_dispatch_per_item_witness :
    ∃ (rs : List Response) (m' : Metrics) (n' : Nat),
      form_response ⟨fun i => i, fun _ => ""⟩ 0
          (.mk "b" (.batch (some (.ok
            [.mk "i1" .ping,
             .mk "i2" (.echo (some (.str "x"))),
             .mk "i3" (.calculate (some (.ok ⟨.divide, 1, 0⟩)))]))))
          Metrics.empty
        = (.resp (.ok ⟨"b", .ok, .arr (rs.map Response.toJson)⟩), m', n')
      ∧ rs.length = 3
      ∧ (∀ (i : Nat)
          (hi : i < ([.mk "i1" .ping,
             .mk "i2" (.echo (some (.str "x"))),
             .mk "i3" (.calculate (some (.ok ⟨.divide, 1, 0⟩)))]
              : List Request).length) (hr : i < rs.length),
          (rs.get ⟨i, hr⟩).requestId
            = some ((([.mk "i1" .ping,
             .mk "i2" (.echo (some (.str "x"))),
             .mk "i3" (.calculate (some (.ok ⟨.divide, 1, 0⟩)))]
              : List Request).get ⟨i, hi⟩).request_id)) := by
  obtain ⟨rs, m', n', h1, h2, h3, -⟩ :=
    batch_dispatch_per_item ⟨fun i => i, fun _ => ""⟩ 0 Metrics.empty "b"
      [.mk "i1" .ping,
       .mk "i2" (.echo (some (.str "x"))),
       .mk "i3" (.calculate (some (.ok ⟨.divide, 1, 0⟩)))]
      (by
        intro r hr
        simp at hr
        rcases hr with h | h | h <;> subst h <;> simp [panicFree])
  exact ⟨rs, m', n', h1, by simpa using h2, h3⟩

/-- C8: every response the dispatcher produces carries the dispatched
request's `request_id`: a top-level response (Ok or Error) carries
`some request_id`, never `none`, and each entry of a batch response carries
the id of the item at its position. -/
theorem dispatcher_propagates_request_id (w : World) (n : Nat) (r : Request)
    (m : Metrics) :
    (∀ (resp : Response) (m' : Metrics) (n' : Nat),
        form_response w n r m = (.resp resp, m', n') →
        resp.requestId = some r.request_id)
  ∧ (∀ (u : Uuid) (items : List Request),
      r = .mk u (.batch (some (.ok items))) →
      (∀ x ∈ items, panicFree x = true) →
      ∃ (rs : List Response) (m' : Metrics) (n' : Nat),
        form_response w n r m
          = (.resp (.ok ⟨u, .ok, .arr (rs.map Response.toJson)⟩), m', n')
        ∧ rs.length = items.length
        ∧ ∀ (i : Nat) (hi : i < items.length) (hr : i < rs.length),
            (rs.get ⟨i, hr⟩).requestId
              = some ((items.get ⟨i, hi⟩).request_id)) := by
  constructor
  · intro resp m' n' h
    exact form_response_requestId h
  · intro u items hreq hpf
    subst hreq
    have hpfl : panicFreeList items = true := (panicFreeList_iff items).2 hpf
    obtain ⟨rs, m', n', hpb, hlen, hentry⟩ :=
      process_batch_shape items w (n + 1) m hpfl
    refine ⟨rs, m', n', ?_, hlen, ?_⟩
    · simp [form_response, process_command, Request.command,
        Request.request_id, Command.kind, hpb]
    · intro i hi hr
      obtain ⟨ni, mi, mi', ni', hform⟩ := hentry i hi hr
      exact form_response_requestId hform

/-- Witness for C8: a failing divide-by-zero dispatch still carries its id. -/
theorem dispatcher_propagates_request_id_witness :
    ∃ (resp : Response) (m' : Metrics) (n' : Nat),
      form_response ⟨fun _ => 1, fun _ => ""⟩ 0
          (.mk "u7" (.calculate (some (.ok ⟨.divide, 3, 0⟩)))) Metrics.empty
        = (.resp resp, m', n')
      ∧ resp.requestId = some "u7" := by
  have hfr : form_response ⟨fun _ => 1, fun _ => ""⟩ 0
      (.mk "u7" (.calculate (some (.ok ⟨.divide, 3, 0⟩)))) Metrics.empty
      = (.resp (.err ⟨some "u7", .error, "division by zero"⟩),
          Metrics.empty.update .calculate 1, 1) := by
    simp [form_response, process_command, process_command_calculate,
      Request.command, Request.request_id, Command.kind]
  exact ⟨_, _, _, hfr,
    (dispatcher_propagates_request_id ⟨fun _ => 1, fun _ => ""⟩ 0
      (.mk "u7" (.calculate (some (.ok ⟨.divide, 3, 0⟩))))
      Metrics.empty).1 _ _ _ hfr⟩

/-- C5: starting from empty metrics, after any panic-free sequence of
dispatches, `count[k]` equals the number of dispatch calls of kind `k`
performed (batch calls not counted), and whenever `count[k] > 0` the
statistics exist and satisfy `min[k] ≤ avg[k] ≤ max[k]`. -/
theorem metrics_after_dispatch_sequence (w : World) (reqs : List Request)
    (k : CommandKind) (h : ∀ r ∈ reqs, panicFree r = true) :
    (runAll w 0 reqs Metrics.empty).1.command_counts k
      = (reqs.map (callsOfKind k)).sum
  ∧ (0 < (runAll w 0 reqs Metrics.empty).1.command_counts k →
      ∃ mn av mx : ℚ,
        (runAll w 0 reqs Metrics.empty).1.processing_time_min k = some mn
      ∧ (runAll w 0 reqs Metrics.empty).1.processing_time_avg k = some av
      ∧ (runAll w 0 reqs Metrics.empty).1.processing_time_max k = some mx
      ∧ mn ≤ av ∧ av ≤ mx) := by
  constructor
  · have hc := runAll_counts w reqs 0 Metrics.empty k h
    simpa [Metrics.empty] using hc
  · intro hpos
    have hinv := runAll_inv w reqs 0 Metrics.empty metricsInv_empty
    exact (hinv k).2 hpos

/-- Witness for C5: two top-level pings from the empty store give
`count[ping] = 2`. -/
theorem metrics_after_dispatch_sequence_witness :
    (runAll ⟨fun i => i, fun _ => ""⟩ 0 [.mk "a" .ping, .mk "b" .ping]
        Metrics.empty).1.command_counts .ping = 2 := by
  have h := (metrics_after_dispatch_sequence ⟨fun i => i, fun _ => ""⟩
    [.mk "a" .ping, .mk "b" .ping] .ping
    (by
      intro r hr
      simp at hr
      rcases hr with h1 | h1 <;> subst h1 <;> simp [panicFree])).1
  rw [h]
  simp [callsOfKind, Command.kind]

lemma decodeCalculate_ok {pf : List (String × Json)} {c : Types.Command}
    (h : Types.decodeCalculate pf = .ok c) :
    ∃ (oj : Json) (op : Operation) (a b : ℚ),
      Types.lookupField pf "operation" = some oj
      ∧ Types.parseOperation oj = .ok op
      ∧ Types.lookupField pf "a" = some (.num a)
      ∧ Types.lookupField pf "b" = some (.num b) := by
  unfold Types.decodeCalculate at h
  split at h
  · simp at h
  · rename_i oj hop
    split at h
    · simp at h
    · rename_i op hpo
      split at h
      · simp at h
      · rename_i a ha
        split at h
        · simp at h
        · rename_i b hb
          exact ⟨oj, op, a, b, hop, hpo, ha, hb⟩
        · simp at h
      · simp at h

/-- C3: decoding an external document into the typed `Request` of
`src/types.rs` succeeds only on an object whose `request_id` member is a
string holding a UUID and whose `command` tag is one of
`ping`/`echo`/`time`/`calculate`/`batch`, with the variant's required
payload fields present and correctly typed (`operation`/`a`/`b` for
`calculate`, an array of decodable requests for `batch`); every other
document yields a structural error, so no request with an unrecognized
command tag ever reaches the dispatcher. -/
theorem decode_requires_wellformed_envelope (j : Json) (r : Types.Request)
    (h : Types.decodeRequest j = .ok r) :
    ∃ fields : List (String × Json), j = .obj fields
      ∧ (∃ s : String,
          Types.lookupField fields "request_id" = some (.str s)
          ∧ Types.parseUuidOk s = true)
      ∧ ∃ tag : String,
          Types.lookupField fields "command" = some (.str tag)
          ∧ (tag = "ping" ∨ tag = "echo" ∨ tag = "time" ∨ tag = "calculate"
              ∨ tag = "batch")
          ∧ (tag = "calculate" →
              ∃ (pf : List (String × Json)) (oj : Json) (op : Operation)
                (a b : ℚ),
                Types.lookupField fields "payload" = some (.obj pf)
                ∧ Types.lookupField pf "operation" = some oj
                ∧ Types.parseOperation oj = .ok op
                ∧ Types.lookupField pf "a" = some (.num a)
                ∧ Types.lookupField pf "b" = some (.num b))
          ∧ (tag = "batch" →
              ∃ (xs : List Json) (items : List Types.Request),
                Types.lookupField fields "payload" = some (.arr xs)
                ∧ Types.decodeRequestList xs = .ok items) := by
  cases j with
  | null => simp [Types.decodeRequest] at h
  | bool x => simp [Types.decodeRequest] at h
  | num x => simp [Types.decodeRequest] at h
  | str x => simp [Types.decodeRequest] at h
  | arr x => simp [Types.decodeRequest] at h
  | obj fields =>
    refine ⟨fields, rfl, ?_⟩
    unfold Types.decodeRequest at h
    split at h
    · simp at h
    · rename_i s hrid
      split at h
      · rename_i huuid
        split at h
        · simp at h
        · rename_i tag hcmd
          refine ⟨⟨s, hrid, huuid⟩, tag, hcmd, ?_⟩
          by_cases h1 : tag = "ping"
          · refine ⟨Or.inl h1, ?_, ?_⟩
            · intro hct
              exact absurd (h1.symm.trans hct) (by decide)
            · intro hbt
              exact absurd (h1.symm.trans hbt) (by decide)
          · rw [if_neg h1] at h
            by_cases h2 : tag = "echo"
            · refine ⟨Or.inr (Or.inl h2), ?_, ?_⟩
              · intro hct
                exact absurd (h2.symm.trans hct) (by decide)
              · intro hbt
                exact absurd (h2.symm.trans hbt) (by decide)
            · rw [if_neg h2] at h
              by_cases h3 : tag = "time"
              · refine ⟨Or.inr (Or.inr (Or.inl h3)), ?_, ?_⟩
                · intro hct
                  exact absurd (h3.symm.trans hct) (by decide)
                · intro hbt
                  exact absurd (h3.symm.trans hbt) (by decide)
              · rw [if_neg h3] at h
                by_cases h4 : tag = "calculate"
                · rw [if_pos h4] at h
                  split at h
                  · simp at h
                  · rename_i pf hpl
                    split at h
                    · rename_i c hdc
                      obtain ⟨oj, op, a, b, e1, e2, e3, e4⟩ :=
                        decodeCalculate_ok hdc
                      refine ⟨Or.inr (Or.inr (Or.inr (Or.inl h4))), ?_, ?_⟩
                      · intro _
                        exact ⟨pf, oj, op, a, b, hpl, e1, e2, e3, e4⟩
                      · intro hbt
                        exact absurd (h4.symm.trans hbt) (by decide)
                    · simp at h
                  · simp at h
                · rw [if_neg h4] at h
                  by_cases h5 : tag = "batch"
                  · rw [if_pos h5] at h
                    split at h
                    · simp at h
                    · rename_i xs hpl
                      split at h
                      · rename_i items hdl
                        refine ⟨Or.inr (Or.inr (Or.inr (Or.inr h5))),
                          ?_, ?_⟩
                        · intro hct
                          exact absurd (h5.symm.trans hct) (by decide)
                        · intro _
                          exact ⟨xs, items, hpl, hdl⟩
                      · simp at h
                    · simp at h
                  · rw [if_neg h5] at h
                    simp at h
        · simp at h
      · simp at h
    · simp at h

/-- Witness for C3: a well-formed calculate document decodes, and the
well-formedness facts the theorem asserts hold for it. -/
theorem decode_requires_wellformed_envelope_witness :
    ∃ fields : List (String × Json),
      (Json.obj
        [("request_id", .str "550e8400-e29b-41d4-a716-446655440000"),
         ("command", .str "calculate"),
         ("payload", .obj [("operation", .str "add"), ("a", .num 1),
           ("b", .num 2)])]) = Json.obj fields
      ∧ (∃ s : String,
          Types.lookupField fields "request_id" = some (.str s)
          ∧ Types.parseUuidOk s = true)
      ∧ ∃ tag : String,
          Types.lookupField fields "command" = some (.str tag)
          ∧ (tag = "ping" ∨ tag = "echo" ∨ tag = "time" ∨ tag = "calculate"
              ∨ tag = "batch")
          ∧ (tag = "calculate" →
              ∃ (pf : List (String × Json)) (oj : Json) (op : Operation)
                (a b : ℚ),
                Types.lookupField fields "payload" = some (.obj pf)
                ∧ Types.lookupField pf "operation" = some oj
                ∧ Types.parseOperation oj = .ok op
                ∧ Types.lookupField pf "a" = some (.num a)
                ∧ Types.lookupField pf "b" = some (.num b))
          ∧ (tag = "batch" →
              ∃ (xs : List Json) (items : List Types.Request),
                Types.lookupField fields "payload" = some (.arr xs)
                ∧ Types.decodeRequestList xs = .ok items) :=
  decode_requires_wellformed_envelope
    (.obj
      [("request_id", .str "550e8400-e29b-41d4-a716-446655440000"),
       ("command", .str "calculate"),
       ("payload", .obj [("operation", .str "add"), ("a", .num 1),
         ("b", .num 2)])])
    (.mk "550e8400-e29b-41d4-a716-446655440000" (.calculate .add 1 2))
    (by
      simp [Types.decodeRequest, Types.decodeCalculate, Types.lookupField,
        Types.parseOperation]
      decide)
